import Mathlib

/-!
Verification development for `MappingScript.py` (Magma2Optistruc).

The script converts six MagmaSoft per-component stress tables into an
Optistruct `INISTRS` initial-stress block.  Its pipeline is

  * read six whitespace-delimited two-column files with
    `pd.read_csv(file, sep=whitespace, comment=dollar, header=None, names=[ELEM, COMP_x])`,
  * inner-merge the six data frames on the `ELEM` column,
  * render each field into an 8-character cell with `format_field`,
  * emit a header line plus, per joined row, an `ELEM` line and a `VALUE` line,
    joined by single newlines.

Shallow embedding conventions:

  * Python machine floats are opaque here; a float is represented by the
    string Python's `str`/`format` produces for it (its rendering), which is
    exactly what the fixed-width formatter consumes.  Scalar stress values are
    therefore carried as their source tokens / renderings (type `String`).
  * Element identifiers are `Int` (pandas parses the first column as int64).
  * `pd.read_csv` and `DataFrame.merge` are modelled by `readTable` and
    `mergeStep` below, following the pandas documentation for the exact
    keyword arguments the script passes; the doc comments of those
    definitions state which corner of the pandas behaviour they cover.
-/

namespace M2O

/- ## Decimal rendering and parsing of integers

Python's `str` on an `int` produces an optional minus sign followed by the
decimal digits.  `natRenderAux` is a fuel-based (hence structurally
recursive and kernel-computable) version of the usual digit expansion. -/

/-- The character for a decimal digit `d < 10`. -/
def digitChar (d : Nat) : Char := Char.ofNat (48 + d)

/-- Decimal digit expansion (most significant first); `fuel` bounds recursion. -/
def natRenderAux : Nat → Nat → List Char
  | 0, _ => []
  | fuel + 1, n => if n = 0 then [] else natRenderAux fuel (n / 10) ++ [digitChar (n % 10)]

/-- Python's `str` on a nonnegative integer. -/
def natRender (n : Nat) : String :=
  if n = 0 then "0" else ⟨natRenderAux (n + 1) n⟩

/-- Python's `str` on an `int`: optional sign followed by decimal digits. -/
def renderInt (i : Int) : String :=
  if i < 0 then "-" ++ natRender i.natAbs else natRender i.natAbs

/-- Value of a digit string (most significant first). -/
def parseNatChars (cs : List Char) : Nat :=
  cs.foldl (fun a c => 10 * a + (c.toNat - 48)) 0

/-- Parse an optionally-signed decimal integer from a list of characters. -/
def parseIntChars : List Char → Option Int
  | [] => none
  | c :: cs =>
    if c = '-' then
      if cs ≠ [] ∧ cs.all Char.isDigit then some (-(parseNatChars cs : Int)) else none
    else if (c :: cs).all Char.isDigit then some (parseNatChars (c :: cs) : Int) else none

/-- Parse a whitespace-free token as an integer. -/
def parseIntToken (s : String) : Option Int := parseIntChars s.data

/-- Parse an 8-character right-justified integer field back, ignoring the
padding spaces (the notional inverse the spec's round-trip property uses). -/
def parseIntField (s : String) : Option Int :=
  parseIntChars (s.data.dropWhile (fun c => c = ' '))

/- ## Fixed-width field formatting (`format_field`) -/

/-- Python `f"{s:<8}"`-style padding: left-justify to a minimum width. -/
def padRight (s : String) (w : Nat) : String :=
  if s.length < w then ⟨s.data ++ List.replicate (w - s.length) ' '⟩ else s

/-- Python `f"{v:>8}"` / numeric `f"{v:8}"`-style padding: right-justify to a
minimum width (numbers are right-aligned by default). -/
def padLeft (s : String) (w : Nat) : String :=
  if s.length < w then ⟨List.replicate (w - s.length) ' ' ++ s.data⟩ else s

/-- A Python value reaching `format_field`: a string, an `int`, or a `float`
(the float represented by its rendering, see the header comment).  The
script's final `else: raise ValueError` branch is unreachable for this type. -/
inductive PyValue where
  | s (v : String)
  | i (v : Int)
  | f (render : String)

/-- The script's `format_field`:
strings are left-aligned (`f"{value:<8}"`), integers right-aligned
(`f"{value:>8}"`), and floats are rendered with `f"{value:8}"` (default
rendering, right-aligned, minimum width 8) and then truncated with
`formatted[:8] if len(formatted) > 8 else formatted`. -/
def format_field : PyValue → String
  | .s v => padRight v 8
  | .i v => padLeft (renderInt v) 8
  | .f r =>
    if 8 < (padLeft r 8).length then ⟨(padLeft r 8).data.take 8⟩ else padLeft r 8

/- ## Output-block assembly (`output_lines`) -/

/-- The script's header line:
`format_field("INISTRS") + format_field("100") + format_field("") + format_field("0")`. -/
def headerLine : String :=
  format_field (.s "INISTRS") ++ format_field (.s "100") ++
    format_field (.s "") ++ format_field (.s "0")

/-- The script's per-element first line:
`format_field("") + format_field("ELEM") + format_field(int(row["ELEM"]))`. -/
def elem_line (id : Int) : String :=
  format_field (.s "") ++ format_field (.s "ELEM") ++ format_field (.i id)

/-- The script's per-element second line:
`format_field("") + format_field("VALUE") + "".join(format_field(v) for v in row[1:])`;
the six component values appear in the joined row in merge order
XX, YY, ZZ, XY, YZ, ZX. -/
def value_line (vs : List String) : String :=
  format_field (.s "") ++ format_field (.s "VALUE") ++
    String.join (vs.map (fun v => format_field (.f v)))

/-- The list `output_lines` of the script: header, then an ELEM line and a
VALUE line per joined row, in join order. -/
def output_lines (recs : List (Int × List String)) : List String :=
  headerLine :: recs.flatMap (fun r => [elem_line r.1, value_line r.2])

/-- The written artifact: `"\n".join(output_lines)`. -/
def outputText (recs : List (Int × List String)) : String :=
  String.intercalate "\n" (output_lines recs)

/-- The `i`-th 8-character column of a line (columns counted from 0). -/
def fieldAt (s : String) (i : Nat) : String :=
  ⟨(s.data.drop (8 * i)).take 8⟩

/- ## The join (`DataFrame.merge` chain) -/

/-- One parsed source table: rows of (element id, value token). -/
abbrev Table := List (Int × String)

/-- One step `acc.merge(df, on="ELEM")` of the script's loop, following the
pandas documentation for an inner merge: the result keeps the order of the
left keys, and a key occurring several times on either side contributes one
row per matching pair (Cartesian product of the matches). -/
def mergeStep (acc : List (Int × List String)) (t : Table) : List (Int × List String) :=
  acc.flatMap (fun p => (t.filter (fun r => r.1 == p.1)).map (fun r => (p.1, p.2 ++ [r.2])))

/-- The script's `combined_data`: start from the key column of the first
frame (`data_frames[0][["ELEM"]]`) and merge every frame — including the
first one again — onto it. -/
def combined_data (dfs : List Table) : List (Int × List String) :=
  match dfs with
  | [] => []
  | d0 :: _ => dfs.foldl mergeStep (d0.map (fun r => (r.1, ([] : List String))))

/-- First value stored under key `k` in a table. -/
def lookup? (t : Table) (k : Int) : Option String :=
  (t.find? (fun r => r.1 == k)).map (fun r => r.2)

/-- Number of rows of `t` whose key is `k`. -/
def countKey (t : Table) (k : Int) : Nat :=
  (t.map Prod.fst).count k

/-- Keys of a table are pairwise distinct. -/
def nodupKeys (t : Table) : Prop := (t.map Prod.fst).Nodup

instance (t : Table) : Decidable (nodupKeys t) := by
  unfold nodupKeys; infer_instance

/-- Inner-join specification, following the spec's words: an element id is
kept iff it is present in all six tables, output rows follow the reference
(first) table's order, and each output row carries the six source values. -/
def joinSpec (t0 t1 t2 t3 t4 t5 : Table) : List (Int × List String) :=
  t0.filterMap (fun r =>
    match lookup? t1 r.1, lookup? t2 r.1, lookup? t3 r.1, lookup? t4 r.1, lookup? t5 r.1 with
    | some v1, some v2, some v3, some v4, some v5 => some (r.1, [r.2, v1, v2, v3, v4, v5])
    | _, _, _, _, _ => none)

/- ## The reader (`pd.read_csv`) -/

/-- Whitespace tokenizer on character lists (split on runs of whitespace,
keep maximal non-whitespace runs).  The fuel argument makes the recursion
structural; one unit of fuel is spent per token or skipped whitespace
character, so any fuel of at least the list's length plus one computes the
full token list. -/
def wsTokensAux : Nat → List Char → List String
  | 0, _ => []
  | _ + 1, [] => []
  | fuel + 1, c :: cs =>
    if c.isWhitespace then wsTokensAux fuel cs
    else
      (⟨(c :: cs).takeWhile (fun d => !d.isWhitespace)⟩ : String) ::
        wsTokensAux fuel ((c :: cs).dropWhile (fun d => !d.isWhitespace))

/-- Comment stripping and whitespace tokenization of one line, as pandas does
for `comment=dollar`, `sep` = whitespace: the line is truncated at the first
comment character (a line starting with it, or blank, hence yields no
tokens and is skipped), and the remainder is split on whitespace runs. -/
def tokens (line : String) : List String :=
  wsTokensAux (line.length + 1) (line.data.takeWhile (fun c => c ≠ '$'))

/-- Failures of the modelled reader.  `parserError` is pandas'
`ParserError("Expected 2 fields, saw N")` for a line with extra fields.
`unmodelled` marks pandas behaviour this development does not need and does
not model: a first data line with other than two fields (pandas would
promote the extra leading columns to the index), and non-integer element
tokens (pandas would fall back to float- or string-typed keys). -/
inductive ReadError where
  | parserError
  | unmodelled
deriving DecidableEq

instance {α : Type} [DecidableEq α] : DecidableEq (Except ReadError α) := fun a b =>
  match a, b with
  | .error e, .error f =>
    if h : e = f then .isTrue (by rw [h]) else .isFalse (by simp [h])
  | .ok x, .ok y =>
    if h : x = y then .isTrue (by rw [h]) else .isFalse (by simp [h])
  | .error _, .ok _ => .isFalse (by simp)
  | .ok _, .error _ => .isFalse (by simp)

/-- Row-by-row conversion of the non-empty token lists of a file into table
rows: a two-token row is an (element id, value token) pair; a one-token row
has its missing value filled with NaN (pandas renders it "nan"); a row with
more than two tokens is pandas' `ParserError`.  The value token is kept
verbatim — pandas does not validate it as a number at read time. -/
def readRows : List (List String) → Except ReadError Table
  | [] => .ok []
  | ts :: rest =>
    match ts with
    | [a] =>
      match parseIntToken a with
      | some n => (readRows rest).map (fun t => (n, "nan") :: t)
      | none => .error .unmodelled
    | [a, b] =>
      match parseIntToken a with
      | some n => (readRows rest).map (fun t => (n, b) :: t)
      | none => .error .unmodelled
    | _ => .error .parserError

/-- Model of `pd.read_csv(file, sep=whitespace, comment=dollar, header=None,
names=["ELEM", "COMP_x"])` on the list of lines of the file, for files whose
first data line has two fields: comment-only and blank lines are dropped and
the remaining rows go through `readRows`. -/
def readTable (lines : List String) : Except ReadError Table :=
  let rows := (lines.map tokens).filter (fun ts => ts ≠ [])
  match rows with
  | [] => .ok []
  | first :: _ => if first.length = 2 then readRows rows else .error .unmodelled

/-- A line the reader accepts: comment-only or blank (no tokens), or exactly
two whitespace-separated tokens whose first token parses as an integer. -/
def goodLine (l : String) : Prop :=
  tokens l = [] ∨
    ((tokens l).length = 2 ∧ (parseIntToken ((tokens l).headD "")).isSome = true)

instance (l : String) : Decidable (goodLine l) := by
  unfold goodLine
  infer_instance

/- ## The whole pipeline -/

/-- The script's `file_names` list: note that the σYY file also serves as the
σZZ source, and the τYZ file also serves as the τZX source. -/
def file_names : List String :=
  ["StressE_TensorX_Ambient_MPa.fem",
   "StressE_TensorY_Ambient_MPa.fem",
   "StressE_TensorY_Ambient_MPa.fem",
   "StressE_TensorXY_c8_Ambient_MPa.fem",
   "StressE_TensorXZ_c8_Ambient_MPa.fem",
   "StressE_TensorXZ_c8_Ambient_MPa.fem"]

/-- The script's `data_frames` loop: read the six files, in order.  The file
system is abstracted as a map from file name to list of lines. -/
def data_frames (fs : String → List String) : Except ReadError (List Table) :=
  file_names.mapM (fun f => readTable (fs f))

/-- End-to-end: the output lines the script would emit for a file system. -/
def pipelineLines (fs : String → List String) : Except ReadError (List String) :=
  (data_frames fs).map (fun dfs => output_lines (combined_data dfs))

/-- A file system on which the shared σYY file carries a duplicated element
id: the counterexample input for claim C9. -/
def fsDup : String → List String := fun n =>
  if n = "StressE_TensorY_Ambient_MPa.fem" then ["1 2.0", "1 3.0"]
  else if n = "StressE_TensorX_Ambient_MPa.fem" then ["1 1.0"]
  else if n = "StressE_TensorXY_c8_Ambient_MPa.fem" then ["1 4.0"]
  else ["1 5.0"]

/-- A well-formed file system with two elements per file: the witness input
for the amended claim C9. -/
def fsW : String → List String := fun n =>
  if n = "StressE_TensorX_Ambient_MPa.fem" then ["10 1.5", "20 2.5"]
  else if n = "StressE_TensorY_Ambient_MPa.fem" then ["10 3.5", "20 4.5"]
  else if n = "StressE_TensorXY_c8_Ambient_MPa.fem" then ["10 5.5", "20 6.5"]
  else ["10 7.5", "20 8.5"]

/-- The conclusion of claim C1, for six tables with pairwise-distinct keys:
the joined keys are exactly the reference keys present in all six tables, in
reference order; the join refines the spec-level `joinSpec`; every joined
record carries values of corresponding source rows; and for identical key
sets the output length is the size of the common key set. -/
def C1Concl (t0 t1 t2 t3 t4 t5 : Table) : Prop :=
  combined_data [t0, t1, t2, t3, t4, t5] = joinSpec t0 t1 t2 t3 t4 t5 ∧
    (combined_data [t0, t1, t2, t3, t4, t5]).map Prod.fst =
      (t0.map Prod.fst).filter (fun k =>
        (t0.map Prod.fst).contains k && (t1.map Prod.fst).contains k &&
          (t2.map Prod.fst).contains k && (t3.map Prod.fst).contains k &&
          (t4.map Prod.fst).contains k && (t5.map Prod.fst).contains k) ∧
    (∀ q ∈ combined_data [t0, t1, t2, t3, t4, t5],
      ∃ v0 v1 v2 v3 v4 v5, q.2 = [v0, v1, v2, v3, v4, v5] ∧
        (q.1, v0) ∈ t0 ∧ (q.1, v1) ∈ t1 ∧ (q.1, v2) ∈ t2 ∧
        (q.1, v3) ∈ t3 ∧ (q.1, v4) ∈ t4 ∧ (q.1, v5) ∈ t5) ∧
    ((∀ k : Int, (k ∈ t1.map Prod.fst ↔ k ∈ t0.map Prod.fst) ∧
        (k ∈ t2.map Prod.fst ↔ k ∈ t0.map Prod.fst) ∧
        (k ∈ t3.map Prod.fst ↔ k ∈ t0.map Prod.fst) ∧
        (k ∈ t4.map Prod.fst ↔ k ∈ t0.map Prod.fst) ∧
        (k ∈ t5.map Prod.fst ↔ k ∈ t0.map Prod.fst)) →
      (combined_data [t0, t1, t2, t3, t4, t5]).length = (t0.map Prod.fst).toFinset.card)

/-- The conclusion of the amended claim C9 on the six parsed tables: the σZZ
table IS the σYY table and the τZX table IS the τYZ table, so every VALUE
line of the join has identical YY/ZZ fields (columns 3 and 4) and identical
YZ/ZX fields (columns 6 and 7). -/
def C9Concl (dfs : List Table) : Prop :=
  ∃ d0 d1 d2 d3 d4 d5, dfs = [d0, d1, d2, d3, d4, d5] ∧ d2 = d1 ∧ d5 = d4 ∧
    ∀ q ∈ combined_data dfs,
      fieldAt (value_line q.2) 3 = fieldAt (value_line q.2) 4 ∧
        fieldAt (value_line q.2) 6 = fieldAt (value_line q.2) 7

/-- The conclusion of claim C3, as a predicate on the joined sequence: the
block has the header followed by exactly two lines per record in join order;
the ELEM line is an empty 8-character field, the left-justified "ELEM" field
and the right-justified integer field of the identifier; the VALUE line is an
empty 8-character field, the "VALUE" field and the six decimal-formatted
component values; the emitted text joins the lines with single newline
characters and ends with the last line's last character, not a newline. -/
def C3Concl (recs : List (Int × List String)) : Prop :=
  (output_lines recs).length = 1 + 2 * recs.length ∧
    (∀ i r, recs[i]? = some r →
      (output_lines recs)[2 * i + 1]? = some (elem_line r.1) ∧
        (output_lines recs)[2 * i + 2]? = some (value_line r.2)) ∧
    (∀ id, elem_line id = "        " ++ padRight "ELEM" 8 ++ padLeft (renderInt id) 8) ∧
    (∀ vs, value_line vs =
      "        " ++ padRight "VALUE" 8 ++ String.join (vs.map (fun v => format_field (.f v)))) ∧
    outputText recs =
      headerLine ++
        String.join (recs.map (fun r => "\n" ++ elem_line r.1 ++ "\n" ++ value_line r.2)) ∧
    (outputText recs).data.getLast? ≠ some '\n'

/-- The conclusion of claim C7: every output line has length a multiple of 8,
the header starts with the "INISTRS " field, and every non-header line starts
with an empty 8-character field followed by the "ELEM" or "VALUE" field. -/
def C7Concl (recs : List (Int × List String)) : Prop :=
  headerLine.data.take 8 = "INISTRS ".data ∧
    ∀ l ∈ output_lines recs, l.length % 8 = 0 ∧
      (l = headerLine ∨ l.data.take 16 = "        ELEM    ".data ∨
        l.data.take 16 = "        VALUE   ".data)

/-! ## Basic lemmas on rendering, parsing and padding -/

theorem data_mk (l : List Char) : (String.mk l).data = l := rfl

theorem digitChar_isDigit {d : Nat} (h : d < 10) : (digitChar d).isDigit = true := by
  interval_cases d <;> decide

theorem digitChar_val {d : Nat} (h : d < 10) : (digitChar d).toNat - 48 = d := by
  interval_cases d <;> decide

theorem isDigit_ne {c : Char} (h : c.isDigit = true) : c ≠ '-' ∧ c ≠ ' ' := by
  constructor <;> rintro rfl <;> exact absurd h (by decide)

theorem parseNatChars_append_digit (l : List Char) (c : Char) :
    parseNatChars (l ++ [c]) = 10 * parseNatChars l + (c.toNat - 48) := by
  unfold parseNatChars
  rw [List.foldl_append]
  rfl

theorem natRenderAux_sound : ∀ fuel n, n < fuel →
    parseNatChars (natRenderAux fuel n) = n ∧
      (∀ c ∈ natRenderAux fuel n, c.isDigit = true) ∧
      (n ≠ 0 → natRenderAux fuel n ≠ []) := by
  intro fuel
  induction fuel with
  | zero => intro n h; omega
  | succ f ih =>
    intro n h
    by_cases h0 : n = 0
    · subst h0
      refine ⟨by simp [natRenderAux, parseNatChars], by simp [natRenderAux], fun hn => absurd rfl hn⟩
    · have hdiv : n / 10 < f := by
        have hlt : n / 10 < n := Nat.div_lt_self (Nat.pos_of_ne_zero h0) (by omega)
        omega
      obtain ⟨ih1, ih2, _⟩ := ih (n / 10) hdiv
      refine ⟨?_, ?_, ?_⟩
      · simp only [natRenderAux, if_neg h0]
        rw [parseNatChars_append_digit, ih1, digitChar_val (Nat.mod_lt n (by omega))]
        omega
      · simp only [natRenderAux, if_neg h0]
        intro c hc
        rcases List.mem_append.1 hc with hm | hm
        · exact ih2 c hm
        · rw [List.mem_singleton.1 hm]
          exact digitChar_isDigit (Nat.mod_lt n (by omega))
      · intro _
        simp [natRenderAux, if_neg h0]

theorem natRender_spec (n : Nat) :
    parseNatChars (natRender n).data = n ∧
      (∀ c ∈ (natRender n).data, c.isDigit = true) ∧ (natRender n).data ≠ [] := by
  by_cases h0 : n = 0
  · subst h0; exact ⟨by decide, by decide, by decide⟩
  · obtain ⟨h1, h2, h3⟩ := natRenderAux_sound (n + 1) n (by omega)
    simp only [natRender, if_neg h0, data_mk]
    exact ⟨h1, h2, h3 h0⟩

theorem parseIntChars_cons_dash (cs : List Char) :
    parseIntChars ('-' :: cs) =
      if cs ≠ [] ∧ cs.all Char.isDigit then some (-(parseNatChars cs : Int)) else none := by
  simp [parseIntChars]

theorem parseIntChars_cons_of_ne (c : Char) (cs : List Char) (hc : c ≠ '-') :
    parseIntChars (c :: cs) =
      if (c :: cs).all Char.isDigit then some (parseNatChars (c :: cs) : Int) else none := by
  simp [parseIntChars, hc]

theorem parseIntChars_renderInt (i : Int) : parseIntChars (renderInt i).data = some i := by
  obtain ⟨h1, h2, h3⟩ := natRender_spec i.natAbs
  by_cases hi : i < 0
  · have hd : (renderInt i).data = '-' :: (natRender i.natAbs).data := by
      simp [renderInt, if_pos hi]
    have hall : (natRender i.natAbs).data.all Char.isDigit = true := by
      rw [List.all_eq_true]; exact h2
    rw [hd, parseIntChars_cons_dash, if_pos ⟨h3, hall⟩, h1]
    congr 1
    omega
  · have hd : (renderInt i).data = (natRender i.natAbs).data := by
      simp [renderInt, if_neg hi]
    obtain ⟨c, cs, hcons⟩ := List.exists_cons_of_ne_nil h3
    have hcd : c.isDigit = true := h2 c (by rw [hcons]; exact List.mem_cons_self c cs)
    have hall : (c :: cs).all Char.isDigit = true := by
      rw [List.all_eq_true]
      intro x hx
      exact h2 x (by rw [hcons]; exact hx)
    rw [hd, hcons, parseIntChars_cons_of_ne c cs (isDigit_ne hcd).1, if_pos hall, ← hcons, h1]
    congr 1
    omega

theorem renderInt_dropWhile_space (i : Int) :
    (renderInt i).data.dropWhile (fun c => decide (c = ' ')) = (renderInt i).data := by
  obtain ⟨_, h2, h3⟩ := natRender_spec i.natAbs
  by_cases hi : i < 0
  · have : (renderInt i).data = '-' :: (natRender i.natAbs).data := by
      simp [renderInt, if_pos hi]
    rw [this, List.dropWhile_cons_of_neg (by decide)]
  · have he : (renderInt i).data = (natRender i.natAbs).data := by
      simp [renderInt, if_neg hi]
    obtain ⟨c, cs, hcons⟩ := List.exists_cons_of_ne_nil h3
    have hcd : c.isDigit = true := h2 c (by rw [hcons]; exact List.mem_cons_self c cs)
    rw [he, hcons, List.dropWhile_cons_of_neg (by simp [(isDigit_ne hcd).2])]

theorem dropWhile_space_pad (k : Nat) (l : List Char) :
    (List.replicate k ' ' ++ l).dropWhile (fun c => decide (c = ' ')) =
      l.dropWhile (fun c => decide (c = ' ')) := by
  induction k with
  | zero => rfl
  | succ m ih => rw [List.replicate_succ, List.cons_append, List.dropWhile_cons_of_pos (by decide), ih]

theorem padLeft_length (s : String) (w : Nat) : (padLeft s w).length = max w s.length := by
  unfold padLeft
  split
  · next h =>
    simp only [String.length_mk, List.length_append, List.length_replicate]
    have : s.data.length = s.length := rfl
    omega
  · next h => omega

theorem padRight_length (s : String) (w : Nat) : (padRight s w).length = max w s.length := by
  unfold padRight
  split
  · next h =>
    simp only [String.length_mk, List.length_append, List.length_replicate]
    have : s.data.length = s.length := rfl
    omega
  · next h => omega

theorem padLeft_of_le (s : String) (w : Nat) (h : w ≤ s.length) : padLeft s w = s := by
  unfold padLeft
  rw [if_neg (by omega)]

theorem padLeft_of_lt (s : String) (w : Nat) (h : s.length < w) :
    padLeft s w = ⟨List.replicate (w - s.length) ' ' ++ s.data⟩ := by
  unfold padLeft
  rw [if_pos h]

theorem format_f_length (r : String) : (format_field (.f r)).length = 8 := by
  have hp : (padLeft r 8).length = max 8 r.length := padLeft_length r 8
  simp only [format_field]
  split
  · next h =>
    simp only [String.length_mk, List.length_take]
    have : (padLeft r 8).data.length = (padLeft r 8).length := rfl
    omega
  · next h => omega

theorem format_i_length (i : Int) : (format_field (.i i)).length = max 8 (renderInt i).length :=
  padLeft_length (renderInt i) 8

/-! ## Claims about field formatting -/

/-- C2: for every decimal (float) value — represented by its natural rendering
`r` — `format_field` returns a cell of exactly 8 characters: a rendering of
exactly 8 characters is emitted unmodified, a longer rendering is truncated to
its first 8 characters with no rounding adjustment (and no error — the
function is total), and a shorter one is padded to width 8. -/
theorem c2_decimal_field (r : String) :
    (format_field (.f r)).length = 8 ∧
      (r.length = 8 → format_field (.f r) = r) ∧
      (8 < r.length → format_field (.f r) = ⟨r.data.take 8⟩) ∧
      (r.length < 8 → format_field (.f r) = padLeft r 8) := by
  refine ⟨format_f_length r, fun h8 => ?_, fun hlong => ?_, fun hshort => ?_⟩
  · have hp : padLeft r 8 = r := padLeft_of_le r 8 (by omega)
    simp only [format_field, hp]
    rw [if_neg (by omega)]
  · have hp : padLeft r 8 = r := padLeft_of_le r 8 (by omega)
    simp only [format_field, hp]
    rw [if_pos hlong]
  · have hp : (padLeft r 8).length = max 8 r.length := padLeft_length r 8
    simp only [format_field]
    rw [if_neg (by omega)]

/-- Witness for `c2_decimal_field` at an exactly-8-character rendering, an
11-character rendering and a 3-character rendering. -/
theorem c2_decimal_field_witness :
    ("-1.2E+01".length = 8 ∧ format_field (.f "-1.2E+01") = "-1.2E+01") ∧
      (8 < "-1.23456789".length ∧
        format_field (.f "-1.23456789") = ⟨"-1.23456789".data.take 8⟩) ∧
      ("2.0".length < 8 ∧ format_field (.f "2.0") = padLeft "2.0" 8) :=
  ⟨⟨by decide, (c2_decimal_field "-1.2E+01").2.1 (by decide)⟩,
   ⟨by decide, (c2_decimal_field "-1.23456789").2.2.1 (by decide)⟩,
   ⟨by decide, (c2_decimal_field "2.0").2.2.2 (by decide)⟩⟩

/-- C8: formatting an integer whose decimal rendering fits in 8 characters as
a right-justified 8-character field and parsing the field back (ignoring the
padding spaces) recovers the integer. -/
theorem c8_int_roundtrip (i : Int) (h : (renderInt i).length ≤ 8) :
    parseIntField (format_field (.i i)) = some i := by
  by_cases hlt : (renderInt i).length < 8
  · have hp := padLeft_of_lt (renderInt i) 8 hlt
    simp only [format_field, hp, parseIntField, data_mk]
    rw [dropWhile_space_pad, renderInt_dropWhile_space, parseIntChars_renderInt]
  · have hp := padLeft_of_le (renderInt i) 8 (by omega)
    simp only [format_field, hp, parseIntField]
    rw [renderInt_dropWhile_space, parseIntChars_renderInt]

/-- Witness for `c8_int_roundtrip` at the 8-character rendering of -1234567. -/
theorem c8_int_roundtrip_witness :
    (renderInt (-1234567)).length ≤ 8 ∧
      parseIntField (format_field (.i (-1234567))) = some (-1234567) :=
  ⟨by decide, c8_int_roundtrip (-1234567) (by decide)⟩

/-- C10: integer fields are never truncated: when the rendering of an integer
is wider than 8 characters, `format_field` returns the full rendering, and the
resulting ELEM line is wider than the 24-character fixed-column layout. -/
theorem c10_wide_int_field (i : Int) (h : 8 < (renderInt i).length) :
    format_field (.i i) = renderInt i ∧ 8 < (format_field (.i i)).length ∧
      (elem_line i).length = 16 + (renderInt i).length ∧ 24 < (elem_line i).length := by
  have hp : format_field (.i i) = renderInt i := padLeft_of_le (renderInt i) 8 (by omega)
  have h1 : (format_field (.s "")).length = 8 := by decide
  have h2 : (format_field (.s "ELEM")).length = 8 := by decide
  have hlen : (elem_line i).length = 16 + (renderInt i).length := by
    simp only [elem_line, String.length_append, h1, h2]
    rw [show (format_field (.i i)).length = (renderInt i).length from by rw [hp]]
  exact ⟨hp, by rw [hp]; omega, hlen, by omega⟩

/-- Witness for `c10_wide_int_field` at a nine-digit element identifier. -/
theorem c10_wide_int_field_witness :
    8 < (renderInt 123456789).length ∧
      (format_field (.i 123456789) = renderInt 123456789 ∧
        8 < (format_field (.i 123456789)).length ∧
        (elem_line 123456789).length = 16 + (renderInt 123456789).length ∧
        24 < (elem_line 123456789).length) :=
  ⟨by decide, c10_wide_int_field 123456789 (by decide)⟩

/-- C4 counterexample: the second header field is the string "100" as passed
to `format_field`, hence LEFT-justified ("100     "), not the right-justified
integer-rule rendering `padLeft "100" 8` = "     100" the claim states. -/
theorem c4_header_counterexample :
    fieldAt headerLine 1 = "100     " ∧ fieldAt headerLine 1 ≠ padLeft "100" 8 := by
  constructor <;> decide

/-- C4 amended: the first line of every output block is the header, made of
the four fields "INISTRS", "100", "" and "0", each formatted as a text token —
left-justified and padded with trailing spaces to width 8 — and concatenated
with no separators. -/
theorem c4_header_amended :
    (∀ recs, (output_lines recs).head? = some headerLine) ∧
      headerLine =
        padRight "INISTRS" 8 ++ padRight "100" 8 ++ padRight "" 8 ++ padRight "0" 8 ∧
      headerLine = "INISTRS 100             0       " :=
  ⟨fun _ => rfl, by decide, by decide⟩

/-! ## Lemmas on `String.join`, `String.intercalate` and the output block -/

theorem string_foldl_append (l : List String) :
    ∀ acc : String, l.foldl (fun r s => r ++ s) acc = acc ++ String.join l := by
  induction l with
  | nil => intro acc; exact (String.append_empty acc).symm
  | cons a l ih =>
    intro acc
    show l.foldl _ (acc ++ a) = acc ++ String.join (a :: l)
    have hj : String.join (a :: l) = a ++ String.join l := by
      show l.foldl _ ("" ++ a) = _
      rw [String.empty_append, ih a]
    rw [ih (acc ++ a), hj, String.append_assoc]

theorem join_cons (a : String) (l : List String) :
    String.join (a :: l) = a ++ String.join l := by
  show l.foldl _ ("" ++ a) = _
  rw [String.empty_append, string_foldl_append l a]

theorem join_append_single (l : List String) (x : String) :
    String.join (l ++ [x]) = String.join l ++ x := by
  show (l ++ [x]).foldl (fun r s => r ++ s) "" = _
  rw [List.foldl_append]
  rfl

theorem join_length (l : List String) :
    (String.join l).length = (l.map String.length).sum := by
  induction l with
  | nil => rfl
  | cons a l ih => rw [join_cons, String.length_append, List.map_cons, List.sum_cons, ih]

theorem mem_join_data (l : List String) (c : Char) (h : c ∈ (String.join l).data) :
    ∃ s ∈ l, c ∈ s.data := by
  induction l with
  | nil => cases h
  | cons a t ih =>
    rw [join_cons, String.data_append] at h
    rcases List.mem_append.1 h with h | h
    · exact ⟨a, List.mem_cons_self a t, h⟩
    · obtain ⟨s, hs, hc⟩ := ih h
      exact ⟨s, List.mem_cons_of_mem a hs, hc⟩

theorem intercalate_go_spec (s : String) : ∀ (l : List String) (acc : String),
    String.intercalate.go acc s l = acc ++ String.join (l.map (fun b => s ++ b)) := by
  intro l
  induction l with
  | nil => intro acc; exact (String.append_empty acc).symm
  | cons a l ih =>
    intro acc
    show String.intercalate.go (acc ++ s ++ a) s l = _
    rw [ih, List.map_cons, join_cons]
    simp only [String.append_assoc]

theorem intercalate_cons (s a : String) (l : List String) :
    String.intercalate s (a :: l) = a ++ String.join (l.map (fun b => s ++ b)) := by
  show String.intercalate.go a s l = _
  rw [intercalate_go_spec]

theorem join_flatMap_pair (recs : List (Int × List String)) :
    String.join
        ((recs.flatMap (fun r => [elem_line r.1, value_line r.2])).map (fun b => "\n" ++ b)) =
      String.join (recs.map (fun r => "\n" ++ elem_line r.1 ++ "\n" ++ value_line r.2)) := by
  induction recs with
  | nil => rfl
  | cons r rs ih =>
    simp only [List.flatMap_cons, List.cons_append, List.nil_append, List.map_cons, join_cons, ih]
    simp only [String.append_assoc]

theorem outputText_eq (recs : List (Int × List String)) :
    outputText recs =
      headerLine ++
        String.join (recs.map (fun r => "\n" ++ elem_line r.1 ++ "\n" ++ value_line r.2)) := by
  unfold outputText output_lines
  rw [intercalate_cons, join_flatMap_pair]

theorem outputText_snoc (recs : List (Int × List String)) (r : Int × List String) :
    outputText (recs ++ [r]) =
      outputText recs ++ ("\n" ++ elem_line r.1 ++ "\n" ++ value_line r.2) := by
  rw [outputText_eq, outputText_eq, List.map_append, List.map_cons, List.map_nil,
    join_append_single]
  simp only [String.append_assoc]

theorem format_f_mem (v : String) (c : Char) (hc : c ∈ (format_field (.f v)).data) :
    c = ' ' ∨ c ∈ v.data := by
  have hpad : ∀ x ∈ (padLeft v 8).data, x = ' ' ∨ x ∈ v.data := by
    intro x hx
    unfold padLeft at hx
    split at hx
    · rw [data_mk] at hx
      rcases List.mem_append.1 hx with hm | hm
      · exact Or.inl (List.eq_of_mem_replicate hm)
      · exact Or.inr hm
    · exact Or.inr hx
  simp only [format_field] at hc
  split at hc
  · rw [data_mk] at hc
    exact hpad c (List.take_subset _ _ hc)
  · exact hpad c hc

theorem value_line_length (vs : List String) : (value_line vs).length = 16 + 8 * vs.length := by
  have h1 : (format_field (.s "")).length = 8 := by decide
  have h2 : (format_field (.s "VALUE")).length = 8 := by decide
  have h3 : ((vs.map (fun v => format_field (.f v))).map String.length).sum = 8 * vs.length := by
    induction vs with
    | nil => rfl
    | cons a t ih =>
      simp only [List.map_cons, List.sum_cons, ih, format_f_length, List.length_cons]
      omega
  unfold value_line
  rw [String.length_append, String.length_append, join_length, h1, h2, h3]

theorem value_line_data_ne_nil (vs : List String) : (value_line vs).data ≠ [] := by
  intro hnil
  have h1 : (value_line vs).length = 16 + 8 * vs.length := value_line_length vs
  have h2 : (value_line vs).data.length = 0 := by rw [hnil]; rfl
  have h3 : (value_line vs).data.length = (value_line vs).length := rfl
  omega

theorem value_line_getLast (vs : List String) (h : ∀ v ∈ vs, '\n' ∉ v.data) :
    (value_line vs).data.getLast? ≠ some '\n' := by
  intro hc
  have hmem : '\n' ∈ (value_line vs).data := List.mem_of_getLast?_eq_some hc
  unfold value_line at hmem
  rw [String.data_append, String.data_append] at hmem
  rcases List.mem_append.1 hmem with hm | hm
  · rcases List.mem_append.1 hm with hm2 | hm2
    · exact absurd hm2 (by decide)
    · exact absurd hm2 (by decide)
  · obtain ⟨s, hs, hcs⟩ := mem_join_data _ _ hm
    obtain ⟨v, hv, rfl⟩ := List.mem_map.1 hs
    rcases format_f_mem v '\n' hcs with h1 | h1
    · exact absurd h1 (by decide)
    · exact h v hv h1

theorem getLast_append_ne {A B : List Char} (hB : B ≠ []) :
    (A ++ B).getLast? = B.getLast? := by
  rw [List.getLast?_append]
  obtain ⟨c, hc⟩ := Option.isSome_iff_exists.1 (List.getLast?_isSome.2 hB)
  rw [hc]
  rfl

theorem outputText_getLast (recs : List (Int × List String))
    (h : ∀ r ∈ recs, ∀ v ∈ r.2, '\n' ∉ v.data) :
    (outputText recs).data.getLast? ≠ some '\n' := by
  induction recs using List.reverseRecOn with
  | nil => revert h; decide
  | append_singleton rs r _ =>
    have hvnil : (value_line r.2).data ≠ [] := value_line_data_ne_nil r.2
    have hBnil : (("\n" ++ elem_line r.1 ++ "\n" ++ value_line r.2)).data ≠ [] := by
      rw [String.data_append]
      intro hh
      exact hvnil (List.append_eq_nil.1 hh).2
    rw [outputText_snoc, String.data_append, getLast_append_ne hBnil, String.data_append,
      getLast_append_ne hvnil]
    exact value_line_getLast r.2
      (fun v hv => h r (List.mem_append.2 (Or.inr (List.mem_singleton.2 rfl))) v hv)

theorem flatMap_pair_length (recs : List (Int × List String)) :
    (recs.flatMap (fun r => [elem_line r.1, value_line r.2])).length = 2 * recs.length := by
  induction recs with
  | nil => rfl
  | cons r rs ih =>
    simp only [List.flatMap_cons, List.cons_append, List.nil_append, List.length_cons, ih,
      List.length_cons]
    omega

theorem flatMap_pair_get (recs : List (Int × List String)) : ∀ (i : Nat) r, recs[i]? = some r →
    (recs.flatMap (fun x => [elem_line x.1, value_line x.2]))[2 * i]? = some (elem_line r.1) ∧
      (recs.flatMap (fun x => [elem_line x.1, value_line x.2]))[2 * i + 1]? =
        some (value_line r.2) := by
  induction recs with
  | nil => intro i r h; simp at h
  | cons a rs ih =>
    intro i r h
    cases i with
    | zero =>
      have ha : a = r := by simpa using h
      subst ha
      constructor <;> simp [List.flatMap_cons]
    | succ j =>
      have h' : rs[j]? = some r := by simpa using h
      have hrec := ih j r h'
      simp only [List.flatMap_cons, List.cons_append, List.nil_append]
      constructor
      · rw [show 2 * (j + 1) = 2 * j + 1 + 1 from by omega, List.getElem?_cons_succ,
          List.getElem?_cons_succ]
        exact hrec.1
      · rw [show 2 * (j + 1) + 1 = 2 * j + 1 + 1 + 1 from by omega, List.getElem?_cons_succ,
          List.getElem?_cons_succ]
        exact hrec.2

theorem elem_line_shape (id : Int) :
    elem_line id = "        " ++ padRight "ELEM" 8 ++ padLeft (renderInt id) 8 := by
  unfold elem_line
  rw [show format_field (.s "") ++ format_field (.s "ELEM") = "        " ++ padRight "ELEM" 8
    from by decide]
  rfl

theorem value_line_shape (vs : List String) :
    value_line vs =
      "        " ++ padRight "VALUE" 8 ++ String.join (vs.map (fun v => format_field (.f v))) := by
  unfold value_line
  rw [show format_field (.s "") ++ format_field (.s "VALUE") = "        " ++ padRight "VALUE" 8
    from by decide]

theorem elem_line_length (id : Int) :
    (elem_line id).length = 16 + max 8 (renderInt id).length := by
  have h1 : (format_field (.s "")).length = 8 := by decide
  have h2 : (format_field (.s "ELEM")).length = 8 := by decide
  unfold elem_line
  rw [String.length_append, String.length_append, h1, h2, format_i_length]

/-! ## Claims about the output block -/

/-- C3: for every joined sequence the output block is the header followed, per
record in join order, by exactly the ELEM line (empty field, "ELEM" field,
right-justified integer field) and the VALUE line (empty field, "VALUE" field,
six decimal-formatted components), all joined by single newlines with no
trailing newline; stated under the hypothesis that the value renderings
contain no newline character (true of every float rendering). -/
theorem c3_output_block (recs : List (Int × List String))
    (hnl : ∀ r ∈ recs, ∀ v ∈ r.2, '\n' ∉ v.data) : C3Concl recs := by
  refine ⟨?_, ?_, elem_line_shape, value_line_shape, outputText_eq recs, outputText_getLast recs hnl⟩
  · unfold output_lines
    rw [List.length_cons, flatMap_pair_length]
    omega
  · intro i r h
    have hrec := flatMap_pair_get recs i r h
    unfold output_lines
    constructor
    · rw [List.getElem?_cons_succ]
      exact hrec.1
    · rw [show 2 * i + 2 = 2 * i + 1 + 1 from by omega, List.getElem?_cons_succ]
      exact hrec.2

/-- Witness for `c3_output_block` at a concrete two-record joined sequence. -/
theorem c3_output_block_witness :
    (∀ r ∈ [((7 : Int), ["1.0", "-2.5", "3.0E+2", "4.0", "5.5", "6.25"]),
            ((12 : Int), ["9.0", "8.0", "7.0", "6.0", "5.0", "4.0"])],
        ∀ v ∈ r.2, '\n' ∉ v.data) ∧
      C3Concl [((7 : Int), ["1.0", "-2.5", "3.0E+2", "4.0", "5.5", "6.25"]),
               ((12 : Int), ["9.0", "8.0", "7.0", "6.0", "5.0", "4.0"])] :=
  ⟨by decide, c3_output_block _ (by decide)⟩

/-- C7: for well-formed inputs — element identifiers whose rendering fits the
8-character column — every output line has length a multiple of 8, the header
begins with the "INISTRS " field, and each record line begins with an empty
8-character field followed by the "ELEM" or "VALUE" field. -/
theorem c7_fixed_columns (recs : List (Int × List String))
    (h : ∀ r ∈ recs, (renderInt r.1).length ≤ 8) : C7Concl recs := by
  refine ⟨by decide, ?_⟩
  intro l hl
  unfold output_lines at hl
  rcases List.mem_cons.1 hl with rfl | hl
  · exact ⟨by decide, Or.inl rfl⟩
  · obtain ⟨r, hr, hm⟩ := List.mem_flatMap.1 hl
    have hid := h r hr
    rcases List.mem_cons.1 hm with rfl | hm
    · refine ⟨?_, Or.inr (Or.inl ?_)⟩
      · rw [elem_line_length]
        omega
      · show ((format_field (.s "") ++ format_field (.s "ELEM")) ++
            format_field (.i r.1)).data.take 16 = _
        rw [String.data_append,
          show (16 : Nat) = (format_field (.s "") ++ format_field (.s "ELEM")).data.length
            from by decide,
          List.take_left]
        decide
    · rcases List.mem_cons.1 hm with rfl | hm
      · refine ⟨?_, Or.inr (Or.inr ?_)⟩
        · rw [value_line_length]
          omega
        · show ((format_field (.s "") ++ format_field (.s "VALUE")) ++
              String.join (r.2.map (fun v => format_field (.f v)))).data.take 16 = _
          rw [String.data_append,
            show (16 : Nat) = (format_field (.s "") ++ format_field (.s "VALUE")).data.length
              from by decide,
            List.take_left]
          decide
      · cases hm

/-! ## Lemmas on the merge chain -/

theorem filter_key_of_not_mem (t : Table) (k : Int) (h : k ∉ t.map Prod.fst) :
    t.filter (fun r => r.1 == k) = [] := by
  rw [List.filter_eq_nil_iff]
  intro r hr hbeq
  exact h (eq_of_beq hbeq ▸ List.mem_map_of_mem Prod.fst hr)

theorem filter_key_nodup (t : Table) (k : Int) (h : nodupKeys t) :
    t.filter (fun r => r.1 == k) = (t.find? (fun r => r.1 == k)).toList := by
  induction t with
  | nil => rfl
  | cons a t ih =>
    have hn : nodupKeys t := (List.nodup_cons.1 h).2
    by_cases hk : a.1 = k
    · rw [List.filter_cons_of_pos (by simp [hk]), List.find?_cons_of_pos t (by simp [hk])]
      have hnm : k ∉ t.map Prod.fst := hk ▸ (List.nodup_cons.1 h).1
      rw [filter_key_of_not_mem t k hnm]
      rfl
    · rw [List.filter_cons_of_neg (by simp [hk]), List.find?_cons_of_neg t (by simp [hk]), ih hn]

theorem mergeStep_nodup (acc : List (Int × List String)) (t : Table) (h : nodupKeys t) :
    mergeStep acc t =
      acc.filterMap (fun p => (lookup? t p.1).map (fun v => (p.1, p.2 ++ [v]))) := by
  induction acc with
  | nil => rfl
  | cons p acc ih =>
    have hstep : mergeStep (p :: acc) t =
        ((t.filter (fun r => r.1 == p.1)).map (fun r => (p.1, p.2 ++ [r.2]))) ++ mergeStep acc t :=
      rfl
    rw [hstep, ih, filter_key_nodup t p.1 h, List.filterMap_cons]
    cases hf : t.find? (fun r => r.1 == p.1) with
    | none => simp [lookup?, hf]
    | some r => simp [lookup?, hf]

theorem lookup?_isSome_of_mem (t : Table) (r : Int × String) :
    r ∈ t → (lookup? t r.1).isSome = true := by
  induction t with
  | nil => intro hr; cases hr
  | cons a t ih =>
    intro hr
    rcases List.mem_cons.1 hr with rfl | hr2
    · unfold lookup?
      rw [List.find?_cons_of_pos t (by simp)]
      rfl
    · by_cases ha : a.1 = r.1
      · unfold lookup?
        rw [List.find?_cons_of_pos t (by simp [ha])]
        rfl
      · unfold lookup?
        rw [List.find?_cons_of_neg t (by simp [ha])]
        exact ih hr2

theorem lookup?_isSome_iff (t : Table) (k : Int) :
    (lookup? t k).isSome = true ↔ k ∈ t.map Prod.fst := by
  constructor
  · intro h
    obtain ⟨v, hv⟩ := Option.isSome_iff_exists.1 h
    obtain ⟨r, hfind, _⟩ := Option.map_eq_some'.1 hv
    have hbeq := List.find?_some hfind
    have hk : r.1 = k := eq_of_beq (by simpa using hbeq)
    exact hk ▸ List.mem_map_of_mem Prod.fst (List.mem_of_find?_eq_some hfind)
  · intro h
    obtain ⟨r, hr, rfl⟩ := List.mem_map.1 h
    exact lookup?_isSome_of_mem t r hr

theorem mem_of_lookup?_eq_some (t : Table) (k : Int) (v : String) (h : lookup? t k = some v) :
    (k, v) ∈ t := by
  obtain ⟨r, hfind, hv⟩ := Option.map_eq_some'.1 h
  have hbeq := List.find?_some hfind
  have hk : r.1 = k := eq_of_beq (by simpa using hbeq)
  have hmem := List.mem_of_find?_eq_some hfind
  have hkv : (k, v) = r := by
    cases r
    simp_all
  rw [hkv]
  exact hmem

theorem lookup?_of_mem_nodup (t : Table) (h : nodupKeys t) (r : Int × String) :
    r ∈ t → lookup? t r.1 = some r.2 := by
  induction t with
  | nil => intro hr; cases hr
  | cons a t ih =>
    intro hr
    rcases List.mem_cons.1 hr with rfl | hr2
    · unfold lookup?
      rw [List.find?_cons_of_pos t (by simp)]
      rfl
    · have hne : ¬a.1 = r.1 := by
        intro he
        exact (List.nodup_cons.1 h).1 (he ▸ List.mem_map_of_mem Prod.fst hr2)
      unfold lookup?
      rw [List.find?_cons_of_neg t (by simp [hne])]
      exact ih (List.nodup_cons.1 h).2 hr2

theorem contains_key (t : Table) (k : Int) :
    (t.map Prod.fst).contains k = (lookup? t k).isSome := by
  rw [Bool.eq_iff_iff]
  constructor
  · intro hc
    replace hc : List.elem k (t.map Prod.fst) = true := hc
    exact (lookup?_isSome_iff t k).2 (List.elem_iff.1 hc)
  · intro hs
    show List.elem k (t.map Prod.fst) = true
    exact List.elem_iff.2 ((lookup?_isSome_iff t k).1 hs)

theorem filterMap_guard {α β : Type} (l : List α) (q : α → Bool) (g : α → β) :
    l.filterMap (fun a => if q a then some (g a) else none) = (l.filter q).map g := by
  induction l with
  | nil => rfl
  | cons a l ih =>
    by_cases hq : q a
    · rw [List.filterMap_cons, List.filter_cons_of_pos hq, List.map_cons, if_pos hq, ih]
    · rw [List.filterMap_cons, List.filter_cons_of_neg hq, if_neg hq, ih]

theorem mergeStep_mem (acc : List (Int × List String)) (t : Table) (q : Int × List String)
    (hq : q ∈ mergeStep acc t) :
    ∃ p ∈ acc, ∃ w, (p.1, w) ∈ t ∧ q = (p.1, p.2 ++ [w]) := by
  obtain ⟨p, hp, hq2⟩ := List.mem_flatMap.1 hq
  obtain ⟨r, hr, rfl⟩ := List.mem_map.1 hq2
  have hfm := List.mem_filter.1 hr
  have hk : r.1 = p.1 := by simpa using hfm.2
  refine ⟨p, hp, r.2, ?_, rfl⟩
  have hpr : (p.1, r.2) = r := by
    cases r
    simp_all
  rw [hpr]
  exact hfm.1

theorem combined_data_six (t0 t1 t2 t3 t4 t5 : Table) :
    combined_data [t0, t1, t2, t3, t4, t5] =
      mergeStep (mergeStep (mergeStep (mergeStep (mergeStep (mergeStep
        (t0.map (fun r => (r.1, ([] : List String)))) t0) t1) t2) t3) t4) t5 :=
  rfl

theorem combined_eq_joinSpec (t0 t1 t2 t3 t4 t5 : Table)
    (h0 : nodupKeys t0) (h1 : nodupKeys t1) (h2 : nodupKeys t2) (h3 : nodupKeys t3)
    (h4 : nodupKeys t4) (h5 : nodupKeys t5) :
    combined_data [t0, t1, t2, t3, t4, t5] = joinSpec t0 t1 t2 t3 t4 t5 := by
  rw [combined_data_six, mergeStep_nodup _ t0 h0, mergeStep_nodup _ t1 h1,
    mergeStep_nodup _ t2 h2, mergeStep_nodup _ t3 h3, mergeStep_nodup _ t4 h4,
    mergeStep_nodup _ t5 h5, List.filterMap_filterMap, List.filterMap_filterMap,
    List.filterMap_filterMap, List.filterMap_filterMap, List.filterMap_filterMap,
    List.filterMap_map]
  apply List.filterMap_congr
  intro r hr
  have hl0 : lookup? t0 r.1 = some r.2 := lookup?_of_mem_nodup t0 h0 r hr
  simp only [Function.comp, hl0, Option.map_some', Option.some_bind]
  cases hl1 : lookup? t1 r.1 <;> cases hl2 : lookup? t2 r.1 <;> cases hl3 : lookup? t3 r.1 <;>
    cases hl4 : lookup? t4 r.1 <;> cases hl5 : lookup? t5 r.1 <;>
      simp [joinSpec, hl1, hl2, hl3, hl4, hl5]

theorem joinSpec_keys (t0 t1 t2 t3 t4 t5 : Table) :
    (joinSpec t0 t1 t2 t3 t4 t5).map Prod.fst =
      (t0.map Prod.fst).filter (fun k =>
        (t0.map Prod.fst).contains k && (t1.map Prod.fst).contains k &&
          (t2.map Prod.fst).contains k && (t3.map Prod.fst).contains k &&
          (t4.map Prod.fst).contains k && (t5.map Prod.fst).contains k) := by
  unfold joinSpec
  rw [List.map_filterMap, List.filter_map, ← filterMap_guard]
  apply List.filterMap_congr
  intro r hr
  have hs0 : (lookup? t0 r.1).isSome = true := lookup?_isSome_of_mem t0 r hr
  cases hl1 : lookup? t1 r.1 <;> cases hl2 : lookup? t2 r.1 <;> cases hl3 : lookup? t3 r.1 <;>
    cases hl4 : lookup? t4 r.1 <;> cases hl5 : lookup? t5 r.1 <;>
      (simp only [Function.comp_apply, contains_key]
       simp [hl1, hl2, hl3, hl4, hl5, hs0])

theorem combined_values (t0 t1 t2 t3 t4 t5 : Table) (q : Int × List String)
    (hq : q ∈ combined_data [t0, t1, t2, t3, t4, t5]) :
    ∃ v0 v1 v2 v3 v4 v5, q.2 = [v0, v1, v2, v3, v4, v5] ∧
      (q.1, v0) ∈ t0 ∧ (q.1, v1) ∈ t1 ∧ (q.1, v2) ∈ t2 ∧
      (q.1, v3) ∈ t3 ∧ (q.1, v4) ∈ t4 ∧ (q.1, v5) ∈ t5 := by
  rw [combined_data_six] at hq
  obtain ⟨p5, hp5, w5, hw5, rfl⟩ := mergeStep_mem _ _ _ hq
  obtain ⟨p4, hp4, w4, hw4, rfl⟩ := mergeStep_mem _ _ _ hp5
  obtain ⟨p3, hp3, w3, hw3, rfl⟩ := mergeStep_mem _ _ _ hp4
  obtain ⟨p2, hp2, w2, hw2, rfl⟩ := mergeStep_mem _ _ _ hp3
  obtain ⟨p1, hp1, w1, hw1, rfl⟩ := mergeStep_mem _ _ _ hp2
  obtain ⟨p0, hp0, w0, hw0, rfl⟩ := mergeStep_mem _ _ _ hp1
  obtain ⟨s, hs, rfl⟩ := List.mem_map.1 hp0
  exact ⟨w0, w1, w2, w3, w4, w5, by simp, hw0, hw1, hw2, hw3, hw4, hw5⟩

/-! ## Claims about the joiner -/

/-- C1: for six tables with pairwise-distinct element ids, the merge chain of
the script computes exactly the spec's inner join: the output keys are the
reference keys present in all six tables in reference order, each record's
six values come from the matching source rows, and identical key sets give
one output record per key of the common set. -/
theorem c1_inner_join (t0 t1 t2 t3 t4 t5 : Table)
    (h0 : nodupKeys t0) (h1 : nodupKeys t1) (h2 : nodupKeys t2) (h3 : nodupKeys t3)
    (h4 : nodupKeys t4) (h5 : nodupKeys t5) : C1Concl t0 t1 t2 t3 t4 t5 := by
  have heq := combined_eq_joinSpec t0 t1 t2 t3 t4 t5 h0 h1 h2 h3 h4 h5
  have hkeys : (combined_data [t0, t1, t2, t3, t4, t5]).map Prod.fst =
      (t0.map Prod.fst).filter (fun k =>
        (t0.map Prod.fst).contains k && (t1.map Prod.fst).contains k &&
          (t2.map Prod.fst).contains k && (t3.map Prod.fst).contains k &&
          (t4.map Prod.fst).contains k && (t5.map Prod.fst).contains k) := by
    rw [heq]
    exact joinSpec_keys t0 t1 t2 t3 t4 t5
  refine ⟨heq, hkeys, fun q hq => combined_values t0 t1 t2 t3 t4 t5 q hq, fun hsets => ?_⟩
  have hfull : (t0.map Prod.fst).filter (fun k =>
      (t0.map Prod.fst).contains k && (t1.map Prod.fst).contains k &&
        (t2.map Prod.fst).contains k && (t3.map Prod.fst).contains k &&
        (t4.map Prod.fst).contains k && (t5.map Prod.fst).contains k) = t0.map Prod.fst := by
    apply List.filter_eq_self.2
    intro k hk
    have hs0 := (lookup?_isSome_iff t0 k).2 hk
    have hs1 := (lookup?_isSome_iff t1 k).2 ((hsets k).1.2 hk)
    have hs2 := (lookup?_isSome_iff t2 k).2 ((hsets k).2.1.2 hk)
    have hs3 := (lookup?_isSome_iff t3 k).2 ((hsets k).2.2.1.2 hk)
    have hs4 := (lookup?_isSome_iff t4 k).2 ((hsets k).2.2.2.1.2 hk)
    have hs5 := (lookup?_isSome_iff t5 k).2 ((hsets k).2.2.2.2.2 hk)
    simp only [contains_key]
    simp [hs0, hs1, hs2, hs3, hs4, hs5]
  have hlen : (combined_data [t0, t1, t2, t3, t4, t5]).length = (t0.map Prod.fst).length := by
    rw [← List.length_map (combined_data [t0, t1, t2, t3, t4, t5]) Prod.fst, hkeys, hfull]
  rw [hlen, List.toFinset_card_of_nodup h0, List.length_map]

/-- Witness for `c1_inner_join` at six concrete tables over the key set
with three elements. -/
theorem c1_inner_join_witness :
    (nodupKeys [((1 : Int), "a"), (2, "b"), (3, "c")] ∧
      nodupKeys [((3 : Int), "d"), (1, "e"), (2, "f")] ∧
      nodupKeys [((2 : Int), "g"), (3, "h"), (1, "i")] ∧
      nodupKeys [((1 : Int), "j"), (3, "k"), (2, "l")] ∧
      nodupKeys [((2 : Int), "m"), (1, "n"), (3, "o")] ∧
      nodupKeys [((3 : Int), "p"), (2, "q"), (1, "r")]) ∧
      C1Concl [((1 : Int), "a"), (2, "b"), (3, "c")] [((3 : Int), "d"), (1, "e"), (2, "f")]
        [((2 : Int), "g"), (3, "h"), (1, "i")] [((1 : Int), "j"), (3, "k"), (2, "l")]
        [((2 : Int), "m"), (1, "n"), (3, "o")] [((3 : Int), "p"), (2, "q"), (1, "r")] :=
  ⟨⟨by decide, by decide, by decide, by decide, by decide, by decide⟩,
    c1_inner_join _ _ _ _ _ _ (by decide) (by decide) (by decide) (by decide) (by decide)
      (by decide)⟩

theorem countKey_eq_countP (t : Table) (k : Int) :
    countKey t k = t.countP (fun r => r.1 == k) := by
  unfold countKey
  rw [show List.count k (t.map Prod.fst) = List.countP (fun x => x == k) (t.map Prod.fst)
    from rfl, List.countP_map]
  rfl

theorem countP_key_mergeStep (acc : List (Int × List String)) (t : Table) (k : Int) :
    (mergeStep acc t).countP (fun q => q.1 == k) =
      acc.countP (fun q => q.1 == k) * countKey t k := by
  induction acc with
  | nil => simp [mergeStep]
  | cons p acc ih =>
    have hstep : mergeStep (p :: acc) t =
        ((t.filter (fun r => r.1 == p.1)).map (fun r => (p.1, p.2 ++ [r.2]))) ++ mergeStep acc t :=
      rfl
    rw [hstep, List.countP_append, ih, List.countP_cons]
    by_cases hk : p.1 = k
    · have hcount : ((t.filter (fun r => r.1 == p.1)).map
          (fun r => (p.1, p.2 ++ [r.2]))).countP (fun q => q.1 == k) = countKey t k := by
        rw [List.countP_map, countKey_eq_countP]
        subst hk
        have hconst : List.countP ((fun q => q.1 == p.1) ∘ fun r => (p.1, p.2 ++ [r.2]))
            (t.filter (fun r => r.1 == p.1)) = (t.filter (fun r => r.1 == p.1)).length :=
          List.countP_eq_length.2 (fun a _ => by simp)
        rw [hconst, ← List.countP_eq_length_filter]
      rw [hcount]
      simp only [if_pos (by simp [hk] : (p.1 == k) = true)]
      ring
    · have hcount : ((t.filter (fun r => r.1 == p.1)).map
          (fun r => (p.1, p.2 ++ [r.2]))).countP (fun q => q.1 == k) = 0 := by
        rw [List.countP_map]
        apply List.countP_eq_zero.2
        intro a _
        simp [Function.comp, hk]
      rw [hcount]
      simp only [if_neg (by simp [hk] : ¬(p.1 == k) = true)]
      ring

/-- C5 counterexample: six concrete tables in which the second table carries
element id 1 twice; the script's merge chain produces two joined records for
id 1 — one per occurrence — instead of failing. -/
theorem c5_duplicate_counterexample :
    ¬nodupKeys [((1 : Int), "b"), (1, "c")] ∧
      combined_data [[((1 : Int), "a")], [((1 : Int), "b"), (1, "c")], [((1 : Int), "d")],
          [((1 : Int), "d")], [((1 : Int), "d")], [((1 : Int), "d")]] =
        [(1, ["a", "b", "d", "d", "d", "d"]), (1, ["a", "c", "d", "d", "d", "d"])] := by
  constructor
  · decide
  · decide

/-- C5 amended: the joiner never fails on duplicated element ids.  Instead the
merge chain is a Cartesian product: the number of output records with key `k`
is the product of the occurrence counts of `k` in the six tables, with the
first table's count squared because the script merges the first frame onto
its own key column. -/
theorem c5_duplicate_cartesian (t0 t1 t2 t3 t4 t5 : Table) (k : Int) :
    (combined_data [t0, t1, t2, t3, t4, t5]).countP (fun q => q.1 == k) =
      countKey t0 k * countKey t0 k * countKey t1 k * countKey t2 k *
        countKey t3 k * countKey t4 k * countKey t5 k := by
  have hbase : (t0.map (fun r => (r.1, ([] : List String)))).countP (fun q => q.1 == k) =
      countKey t0 k := by
    rw [List.countP_map, countKey_eq_countP]
    rfl
  rw [combined_data_six, countP_key_mergeStep, countP_key_mergeStep, countP_key_mergeStep,
    countP_key_mergeStep, countP_key_mergeStep, countP_key_mergeStep, hbase]

theorem mergeStep_twice_nodup (acc : List (Int × List String)) (t : Table) (h : nodupKeys t)
    (q : Int × List String) (hq : q ∈ mergeStep (mergeStep acc t) t) :
    ∃ p ∈ acc, ∃ v, q = (p.1, p.2 ++ [v, v]) := by
  rw [mergeStep_nodup _ t h, mergeStep_nodup _ t h] at hq
  obtain ⟨p1, hp1, hf1⟩ := List.mem_filterMap.1 hq
  obtain ⟨p0, hp0, hf0⟩ := List.mem_filterMap.1 hp1
  cases hl0 : lookup? t p0.1 with
  | none => rw [hl0] at hf0; cases hf0
  | some v =>
    rw [hl0] at hf0
    have hp1eq : p1 = (p0.1, p0.2 ++ [v]) := by
      have := Option.some.inj hf0
      exact this.symm
    subst hp1eq
    rw [show ((p0.1, p0.2 ++ [v]) : Int × List String).1 = p0.1 from rfl, hl0] at hf1
    have hqeq := Option.some.inj hf1
    refine ⟨p0, hp0, v, ?_⟩
    rw [← hqeq]
    simp

theorem combined_shape_yyzz (t0 t1 t3 t4 : Table) (h1 : nodupKeys t1) (h4 : nodupKeys t4)
    (q : Int × List String) (hq : q ∈ combined_data [t0, t1, t1, t3, t4, t4]) :
    ∃ x v w u, q.2 = [x, v, v, w, u, u] := by
  rw [combined_data_six] at hq
  obtain ⟨p3, hp3, u, rfl⟩ := mergeStep_twice_nodup _ t4 h4 _ hq
  obtain ⟨p2, hp2, w, _, rfl⟩ := mergeStep_mem _ _ _ hp3
  obtain ⟨p1, hp1, v, rfl⟩ := mergeStep_twice_nodup _ t1 h1 _ hp2
  obtain ⟨p0, hp0, x, _, rfl⟩ := mergeStep_mem _ _ _ hp1
  obtain ⟨s, _, rfl⟩ := List.mem_map.1 hp0
  exact ⟨x, v, w, u, by simp⟩

theorem fieldAt_succ (a b : String) (ha : a.length = 8) (i : Nat) :
    fieldAt (a ++ b) (i + 1) = fieldAt b i := by
  unfold fieldAt
  have hlen : a.data.length = 8 := ha
  have hd : (a ++ b).data.drop (8 * (i + 1)) = b.data.drop (8 * i) := by
    rw [String.data_append, show 8 * (i + 1) = a.data.length + 8 * i from by omega,
      ← List.drop_drop, List.drop_left]
  rw [hd]

theorem fieldAt_first (a b : String) (ha : a.length = 8) : fieldAt (a ++ b) 0 = a := by
  unfold fieldAt
  have hlen : a.data.length = 8 := ha
  rw [String.data_append, show 8 * 0 = 0 from rfl, List.drop_zero,
    show (8 : Nat) = a.data.length from hlen.symm, List.take_left]

theorem fieldAt_join_fmt (vs : List String) : ∀ (i : Nat) (v : String), vs[i]? = some v →
    fieldAt (String.join (vs.map (fun x => format_field (.f x)))) i = format_field (.f v) := by
  induction vs with
  | nil => intro i v hv; simp at hv
  | cons a t ih =>
    intro i v hv
    rw [List.map_cons, join_cons]
    cases i with
    | zero =>
      have hva : a = v := by simpa using hv
      rw [fieldAt_first _ _ (format_f_length a), hva]
    | succ j =>
      rw [fieldAt_succ _ _ (format_f_length a) j]
      exact ih j v (by simpa using hv)

theorem fieldAt_value_line (vs : List String) (i : Nat) (v : String) (hv : vs[i]? = some v) :
    fieldAt (value_line vs) (i + 2) = format_field (.f v) := by
  have h0 : (format_field (.s "")).length = 8 := by decide
  have hV : (format_field (.s "VALUE")).length = 8 := by decide
  have hvl : value_line vs = format_field (.s "") ++ (format_field (.s "VALUE") ++
      String.join (vs.map (fun x => format_field (.f x)))) := by
    unfold value_line
    rw [String.append_assoc]
  have e1 : fieldAt (value_line vs) (i + 2) =
      fieldAt (format_field (.s "VALUE") ++
        String.join (vs.map (fun x => format_field (.f x)))) (i + 1) := by
    rw [hvl]
    exact fieldAt_succ _ _ h0 (i + 1)
  have e2 : fieldAt (format_field (.s "VALUE") ++
      String.join (vs.map (fun x => format_field (.f x)))) (i + 1) =
      fieldAt (String.join (vs.map (fun x => format_field (.f x)))) i :=
    fieldAt_succ _ _ hV i
  rw [e1, e2]
  exact fieldAt_join_fmt vs i v hv

/-- C9 counterexample: on the file system `fsDup`, whose shared σYY/σZZ file
repeats element id 1, the pipeline emits a VALUE line whose ZZ field (column
4) differs from its YY field (column 3): the Cartesian-product merge pairs
the two occurrences. -/
theorem c9_aliased_counterexample :
    ((pipelineLines fsDup).toOption.getD []).any
        (fun l => fieldAt l 1 == "VALUE   " && !(fieldAt l 3 == fieldAt l 4)) = true := by
  decide

/-- C9 amended: the six tables are read from only four distinct files — the
σZZ table is the σYY table and the τZX table is the τYZ table — and, provided
element ids are unique within each table, every joined record's VALUE line
has its ZZ field (column 4) equal to its YY field (column 3) and its ZX field
(column 7) equal to its YZ field (column 6). -/
theorem c9_aliased_sources (fs : String → List String) (dfs : List Table)
    (hok : data_frames fs = .ok dfs) (hn : ∀ t ∈ dfs, nodupKeys t) :
    file_names[1]? = file_names[2]? ∧ file_names[4]? = file_names[5]? ∧ C9Concl dfs := by
  refine ⟨rfl, rfl, ?_⟩
  unfold data_frames file_names at hok
  cases h0 : readTable (fs "StressE_TensorX_Ambient_MPa.fem") with
  | error e => simp [List.mapM, List.mapM.loop, h0, Bind.bind, Except.bind] at hok
  | ok d0 =>
  cases h1 : readTable (fs "StressE_TensorY_Ambient_MPa.fem") with
  | error e =>
    simp [List.mapM, List.mapM.loop, h0, h1, Bind.bind, Except.bind, Functor.map,
      Except.map] at hok
  | ok d1 =>
  cases h3 : readTable (fs "StressE_TensorXY_c8_Ambient_MPa.fem") with
  | error e =>
    simp [List.mapM, List.mapM.loop, h0, h1, h3, Bind.bind, Except.bind, Functor.map,
      Except.map] at hok
  | ok d3 =>
  cases h4 : readTable (fs "StressE_TensorXZ_c8_Ambient_MPa.fem") with
  | error e =>
    simp [List.mapM, List.mapM.loop, h0, h1, h3, h4, Bind.bind, Except.bind, Functor.map,
      Except.map] at hok
  | ok d4 =>
  simp only [List.mapM, List.mapM.loop, h0, h1, h3, h4, Bind.bind, Except.bind, Functor.map,
    Except.map, Pure.pure, Except.pure, List.reverse_cons, List.reverse_nil, List.nil_append,
    List.cons_append, Except.ok.injEq] at hok
  subst hok
  refine ⟨d0, d1, d1, d3, d4, d4, rfl, rfl, rfl, ?_⟩
  intro q hq
  have hn1 : nodupKeys d1 := hn d1 (by simp)
  have hn4 : nodupKeys d4 := hn d4 (by simp)
  obtain ⟨x, v, w, u, hshape⟩ := combined_shape_yyzz d0 d1 d3 d4 hn1 hn4 q hq
  rw [hshape]
  constructor
  · have e3 : fieldAt (value_line [x, v, v, w, u, u]) 3 = format_field (.f v) :=
      fieldAt_value_line [x, v, v, w, u, u] 1 v (by simp)
    have e4 : fieldAt (value_line [x, v, v, w, u, u]) 4 = format_field (.f v) :=
      fieldAt_value_line [x, v, v, w, u, u] 2 v (by simp)
    rw [e3, e4]
  · have e6 : fieldAt (value_line [x, v, v, w, u, u]) 6 = format_field (.f u) :=
      fieldAt_value_line [x, v, v, w, u, u] 4 u (by simp)
    have e7 : fieldAt (value_line [x, v, v, w, u, u]) 7 = format_field (.f u) :=
      fieldAt_value_line [x, v, v, w, u, u] 5 u (by simp)
    rw [e6, e7]

/-- Witness for `c9_aliased_sources` at the concrete file system `fsW`. -/
theorem c9_aliased_sources_witness :
    (data_frames fsW = .ok [[((10 : Int), "1.5"), (20, "2.5")], [((10 : Int), "3.5"), (20, "4.5")],
        [((10 : Int), "3.5"), (20, "4.5")], [((10 : Int), "5.5"), (20, "6.5")],
        [((10 : Int), "7.5"), (20, "8.5")], [((10 : Int), "7.5"), (20, "8.5")]] ∧
      (∀ t ∈ [[((10 : Int), "1.5"), (20, "2.5")], [((10 : Int), "3.5"), (20, "4.5")],
          [((10 : Int), "3.5"), (20, "4.5")], [((10 : Int), "5.5"), (20, "6.5")],
          [((10 : Int), "7.5"), (20, "8.5")], [((10 : Int), "7.5"), (20, "8.5")]], nodupKeys t)) ∧
      (file_names[1]? = file_names[2]? ∧ file_names[4]? = file_names[5]? ∧
        C9Concl [[((10 : Int), "1.5"), (20, "2.5")], [((10 : Int), "3.5"), (20, "4.5")],
          [((10 : Int), "3.5"), (20, "4.5")], [((10 : Int), "5.5"), (20, "6.5")],
          [((10 : Int), "7.5"), (20, "8.5")], [((10 : Int), "7.5"), (20, "8.5")]]) :=
  ⟨⟨by decide, by decide⟩, c9_aliased_sources fsW _ (by decide) (by decide)⟩

/-! ## Lemmas on the reader -/

theorem readTable_eq (lines : List String) :
    readTable lines =
      match (lines.map tokens).filter (fun ts => ts ≠ []) with
      | [] => .ok []
      | first :: rest =>
        if first.length = 2 then readRows (first :: rest) else .error .unmodelled := by
  unfold readTable
  cases (lines.map tokens).filter (fun ts => ts ≠ []) <;> rfl

theorem readRows_ok (rows : List (List String))
    (h : ∀ ts ∈ rows, ∃ a b, ts = [a, b] ∧ (parseIntToken a).isSome = true) :
    ∃ t : Table, readRows rows = .ok t ∧ t.length = rows.length := by
  induction rows with
  | nil => exact ⟨[], rfl, rfl⟩
  | cons ts rest ih =>
    obtain ⟨a, b, rfl, hp⟩ := h _ (List.mem_cons_self _ rest)
    obtain ⟨n, hn⟩ := Option.isSome_iff_exists.1 hp
    obtain ⟨t, ht, hl⟩ := ih (fun ts2 hts2 => h ts2 (List.mem_cons_of_mem _ hts2))
    refine ⟨(n, b) :: t, ?_, by simp [hl]⟩
    simp [readRows, hn, ht, Except.map]

/-- C6 counterexample: the blank line and the one-field line "5" do not begin
with the comment marker, do not split into two parseable fields, and yet the
reader produces output — the blank line is silently dropped and "5" becomes
the pair (5, NaN) — instead of failing with a ParseError. -/
theorem c6_reader_counterexample :
    readTable ["1 2.0", "", "5"] = .ok [(1, "2.0"), (5, "nan")] ∧
      "".data.head? ≠ some '$' ∧ "5".data.head? ≠ some '$' := by
  refine ⟨by decide, by decide, by decide⟩

/-- C6 amended: the reader drops comment lines, blank lines and the remainder
of a line after a mid-line marker; a non-comment line with more than two
whitespace fields fails with pandas' parser error, but a line with a single
field yields an (element_id, NaN) pair instead of an error, and the value
field is not validated at read time; for well-formed sources the reader
yields one (element_id, value) pair per line that has tokens. -/
theorem c6_reader_amended :
    (∀ lines : List String, (∀ l ∈ lines, goodLine l) →
      ∃ t : Table, readTable lines = .ok t ∧
        t.length = (lines.filter (fun l => tokens l ≠ [])).length) ∧
      readTable ["1 1.0", "1 2 3"] = .error .parserError ∧
      readTable ["1 1.0", "7"] = .ok [(1, "1.0"), (7, "nan")] ∧
      readTable ["$ comment", "", "2 3.0"] = .ok [(2, "3.0")] := by
  refine ⟨?_, by decide, by decide, by decide⟩
  intro lines hgood
  have hrows : ∀ ts ∈ (lines.map tokens).filter (fun ts => ts ≠ []),
      ∃ a b, ts = [a, b] ∧ (parseIntToken a).isSome = true := by
    intro ts hts
    have hmem := List.mem_filter.1 hts
    obtain ⟨l, hl, rfl⟩ := List.mem_map.1 hmem.1
    have hne : tokens l ≠ [] := by simpa using hmem.2
    rcases hgood l hl with hnil | ⟨hlen, hparse⟩
    · exact absurd hnil hne
    · obtain ⟨a, b, hab⟩ := List.length_eq_two.1 hlen
      refine ⟨a, b, hab, ?_⟩
      rw [hab] at hparse
      simpa using hparse
  have hlen2 : ((lines.map tokens).filter (fun ts => ts ≠ [])).length =
      (lines.filter (fun l => tokens l ≠ [])).length := by
    rw [List.filter_map, List.length_map]
    rfl
  cases hrowsnil : (lines.map tokens).filter (fun ts => ts ≠ []) with
  | nil =>
    refine ⟨[], ?_, ?_⟩
    · rw [readTable_eq, hrowsnil]
    · rw [← hlen2, hrowsnil]
      rfl
  | cons first rest =>
    have hfirst : first.length = 2 := by
      obtain ⟨a, b, hab, _⟩ := hrows first (by rw [hrowsnil]; exact List.mem_cons_self _ _)
      rw [hab]
      rfl
    obtain ⟨t, ht, hlt⟩ := readRows_ok (first :: rest) (by rw [← hrowsnil]; exact hrows)
    refine ⟨t, ?_, ?_⟩
    · rw [readTable_eq, hrowsnil]
      show (if first.length = 2 then readRows (first :: rest) else .error .unmodelled) = .ok t
      rw [if_pos hfirst]
      exact ht
    · rw [hlt, ← hlen2, hrowsnil]

/-- Witness for the general clause of `c6_reader_amended` at a concrete
three-line source with one comment line. -/
theorem c6_reader_amended_witness :
    (∀ l ∈ ["$ c", "3 4.5", "6 7.5"], goodLine l) ∧
      ∃ t : Table, readTable ["$ c", "3 4.5", "6 7.5"] = .ok t ∧
        t.length = (["$ c", "3 4.5", "6 7.5"].filter (fun l => tokens l ≠ [])).length :=
  ⟨by decide, c6_reader_amended.1 _ (by decide)⟩

/-- Witness for `c7_fixed_columns` at a concrete two-record joined sequence. -/
theorem c7_fixed_columns_witness :
    (∀ r ∈ [((3 : Int), ["1.0", "2.0", "3.0", "4.0", "5.0", "6.0"]),
            ((-42 : Int), ["7.0", "8.0", "9.0", "1.5", "2.5", "3.5"])],
        (renderInt r.1).length ≤ 8) ∧
      C7Concl [((3 : Int), ["1.0", "2.0", "3.0", "4.0", "5.0", "6.0"]),
               ((-42 : Int), ["7.0", "8.0", "9.0", "1.5", "2.5", "3.5"])] :=
  ⟨by decide, c7_fixed_columns _ (by decide)⟩

end M2O
